import Mathlib

/-!
Verification of the `pew` micro-benchmarking library (shallow embedding).

The embedding follows the current modular sources:
`src/clock.rs`, `src/state.rs`, `src/benchmark.rs`, `src/config.rs`.

Modelling conventions:
* `Clock::now()` reads an external monotonic CPU-time source; every operation
  that reads the clock therefore takes the reading `now : Nat` as an explicit
  argument.  Monotonicity of successive readings is a hypothesis where needed.
* A Rust `panic!` is modelled as `Option.none` (the operation has no normal
  result; the process terminates).
* `u64` arithmetic is modelled on `Nat`; the quantities involved (nanosecond
  counts) never approach `2^64` in the properties considered, and Rust's
  checked subtraction `now - start_time` is mirrored by truncated `Nat`
  subtraction together with explicit monotonicity hypotheses.
* The two `while` loops of `Benchmark::run` are modelled with explicit fuel;
  `none` means the loop did not terminate within the given fuel.
-/

namespace Pew

/-- The `Clock` struct of `src/clock.rs`: a pausable monotonic stopwatch. -/
structure Clock where
  is_paused : Bool
  start_time : Nat
  elapsed_time : Nat
deriving DecidableEq, Repr

/-- `Clock::new` (src/clock.rs): starts running at the current reading `now`. -/
def Clock.new (now : Nat) : Clock :=
  { is_paused := false, start_time := now, elapsed_time := 0 }

/-- `Clock::pause` (src/clock.rs): adds `now - start_time` to the elapsed time;
panics (`none`) if the clock is already paused. -/
def Clock.pause (c : Clock) (now : Nat) : Option Clock :=
  if c.is_paused then none
  else some { c with elapsed_time := c.elapsed_time + (now - c.start_time), is_paused := true }

/-- `Clock::resume` (src/clock.rs): restarts the running segment at `now`;
panics (`none`) if the clock is not paused. -/
def Clock.resume (c : Clock) (now : Nat) : Option Clock :=
  if !c.is_paused then none
  else some { c with is_paused := false, start_time := now }

/-- `Clock::stop` (src/clock.rs): returns `elapsed_time + now - start_time`,
consuming the clock; panics (`none`) if the clock is paused. -/
def Clock.stop (c : Clock) (now : Nat) : Option Nat :=
  if c.is_paused then none
  else some (c.elapsed_time + now - c.start_time)

/-- A well-formed alternating pause/resume history: starting from a running
clock, pause at time `p` and resume at time `r` for each pair `(p, r)` in
order.  The clock is running again after each pair. -/
def pauseResumeRun (c : Clock) : List (Nat × Nat) → Option Clock
  | [] => some c
  | (p, r) :: rest => do
    let c1 ← c.pause p
    let c2 ← c1.resume r
    pauseResumeRun c2 rest

/-- The sum, over every running segment, of (segment end reading) minus
(segment start reading): the first segment runs from `t0` to the first pause,
each later segment from a resume to the next pause, and the final open segment
ends at `tEnd`. -/
def segSum (t0 : Nat) : List (Nat × Nat) → Nat → Nat
  | [], tEnd => tEnd - t0
  | (p, r) :: rest, tEnd => (p - t0) + segSum r rest tEnd

/-- The clock readings `t0, p1, r1, p2, r2, …, tEnd` are non-decreasing
(the time source is monotonic). -/
def chron (t0 : Nat) : List (Nat × Nat) → Nat → Bool
  | [], tEnd => decide (t0 ≤ tEnd)
  | (p, r) :: rest, tEnd => decide (t0 ≤ p) && decide (p ≤ r) && chron r rest tEnd

lemma pauseResumeRun_stop (ps : List (Nat × Nat)) :
    ∀ t0 e tEnd : Nat, chron t0 ps tEnd = true →
      (pauseResumeRun ⟨false, t0, e⟩ ps).bind (fun c => c.stop tEnd)
        = some (e + segSum t0 ps tEnd) := by
  induction ps with
  | nil =>
    intro t0 e tEnd h
    simp only [chron, decide_eq_true_eq] at h
    simp [pauseResumeRun, Clock.stop, segSum, Nat.add_sub_assoc h]
  | cons pr rest ih =>
    obtain ⟨p, r⟩ := pr
    intro t0 e tEnd h
    simp only [chron, Bool.and_eq_true, decide_eq_true_eq] at h
    obtain ⟨⟨_, _⟩, hrest⟩ := h
    have step : pauseResumeRun (⟨false, t0, e⟩ : Clock) ((p, r) :: rest)
        = pauseResumeRun ⟨false, r, e + (p - t0)⟩ rest := by
      simp [pauseResumeRun, Clock.pause, Clock.resume]
    rw [step, ih r (e + (p - t0)) tEnd hrest]
    simp [segSum, Nat.add_assoc]

/-- C1: For every well-formed alternating pause/resume history (running at
construction, pauses and resumes in pairs, final `stop` in the running state),
with monotone clock readings, `Clock::stop` returns exactly the sum over every
running segment of (end reading − start reading); paused intervals contribute
nothing. -/
theorem clock_stop_sums_running_segments (t0 : Nat) (ps : List (Nat × Nat)) (tEnd : Nat)
    (h : chron t0 ps tEnd = true) :
    (pauseResumeRun (Clock.new t0) ps).bind (fun c => c.stop tEnd)
      = some (segSum t0 ps tEnd) := by
  have := pauseResumeRun_stop ps t0 0 tEnd h
  simpa [Clock.new] using this

theorem clock_stop_sums_running_segments_witness :
    (pauseResumeRun (Clock.new 0) [(3, 10)]).bind (fun c => c.stop 14) = some 7 :=
  (clock_stop_sums_running_segments 0 [(3, 10)] 14 (by decide)).trans (by decide)

/-- The `State<T>` struct of `src/state.rs`: a clock plus the run's input. -/
structure State (T : Type) where
  clock : Clock
  input : T

/-- `State::new` (src/state.rs): a fresh running clock and the stored input. -/
def State.new {T : Type} (input : T) (now : Nat) : State T :=
  { clock := Clock.new now, input := input }

/-- `State::pause` (src/state.rs): delegates to `Clock::pause`. -/
def State.pause {T : Type} (s : State T) (now : Nat) : Option (State T) :=
  (s.clock.pause now).map (fun c => { s with clock := c })

/-- `State::resume` (src/state.rs): delegates to `Clock::resume`. -/
def State.resume {T : Type} (s : State T) (now : Nat) : Option (State T) :=
  (s.clock.resume now).map (fun c => { s with clock := c })

/-- `State::finish` (src/state.rs): stops the clock, consuming the state. -/
def State.finish {T : Type} (s : State T) (now : Nat) : Option Nat :=
  s.clock.stop now

/-- `State::get_input` (src/state.rs): pauses the clock (reading `tp`), swaps
the stored input for `T::default()` (Lean: `default`), resumes (reading `tr`),
and returns the extracted input together with the updated state. -/
def State.get_input {T : Type} [Inhabited T] (s : State T) (tp tr : Nat) :
    Option (T × State T) := do
  let s1 ← s.pause tp
  let s2 : State T := { s1 with input := default }
  let s3 ← s2.resume tr
  some (s1.input, s3)

/-- C3: On a freshly constructed `State`, the first `get_input` returns the
original input `x`, a second `get_input` on the resulting state returns the
type's default value, and both calls leave the state running (each pauses and
then resumes the clock around the extraction). -/
theorem get_input_first_original_then_default (T : Type) [Inhabited T]
    (x : T) (t0 t1 t2 t3 t4 : Nat) :
    ∃ s1 s2 : State T,
      (State.new x t0).get_input t1 t2 = some (x, s1) ∧
      s1.clock.is_paused = false ∧
      s1.get_input t3 t4 = some ((default : T), s2) ∧
      s2.clock.is_paused = false := by
  refine ⟨⟨⟨false, t2, t1 - t0⟩, default⟩, ⟨⟨false, t4, (t1 - t0) + (t3 - t2)⟩, default⟩, ?_, rfl, ?_, rfl⟩ <;>
    simp [State.new, State.get_input, State.pause, State.resume,
      Clock.new, Clock.pause, Clock.resume]

/-- C6: A `Clock`/`State` operation panics (modelled `none`) exactly when the
state machine is misused: `pause` on a paused clock, `resume` on a running
clock, `stop`/`finish` on a paused clock, `get_input` on a paused state; in
every other state the operation succeeds (`some`). -/
theorem invalid_state_exactly_on_misuse (T : Type) [Inhabited T]
    (c : Clock) (s : State T) (now tp tr : Nat) :
    (c.pause now = none ↔ c.is_paused = true) ∧
    (c.resume now = none ↔ c.is_paused = false) ∧
    (c.stop now = none ↔ c.is_paused = true) ∧
    (s.pause now = none ↔ s.clock.is_paused = true) ∧
    (s.resume now = none ↔ s.clock.is_paused = false) ∧
    (s.finish now = none ↔ s.clock.is_paused = true) ∧
    (s.get_input tp tr = none ↔ s.clock.is_paused = true) := by
  obtain ⟨cp, cst, cel⟩ := c
  obtain ⟨⟨sp, sst, sel⟩, inp⟩ := s
  cases cp <;> cases sp <;>
    simp_all [Clock.pause, Clock.resume, Clock.stop,
      State.pause, State.resume, State.finish, State.get_input]

/-- The runtime configuration of `src/config.rs` (`Config`): the benchmark
name filter (the regex `is_match` is modelled as an opaque predicate on the
name), the minimum accumulated duration in ns, and the minimum number of
runs. -/
structure Config where
  filter : String → Bool
  min_duration : Nat
  min_runs : Nat

/-- `create_config` (src/config.rs): the parsed `min_duration` argument is in
seconds and is scaled to ns; the parsed `min_runs` argument is clamped to at
least 2 via `cmp::max`. -/
def create_config (filter : String → Bool) (min_duration_arg min_runs_arg : Nat) : Config :=
  { filter := filter
    min_duration := min_duration_arg * 1000000000
    min_runs := max min_runs_arg 2 }

/-- `should_run_bm` (src/benchmark.rs): the configured filter applied to the
fully composed benchmark name. -/
def should_run_bm (cfg : Config) (bm_name : String) : Bool :=
  cfg.filter bm_name

/-- `range_generator` (src/benchmark.rs): the identity, the default generator. -/
def range_generator (i : Nat) : Nat := i

/-- `compose` (src/benchmark.rs): `compose f g = fun i => g (f i)`. -/
def compose {T U : Type} (f : Nat → T) (g : T → U) : Nat → U :=
  fun i => g (f i)

/-- A registered benchmark function, abstracted by its observable timing
behaviour: given the (cloned) input and the repetition index, the nanosecond
total that `state.finish()` returns for that repetition.  (The actual Rust
value `fn(&mut State<T>)` interacts with real time, which the embedding treats
as external nondeterminism.) -/
def BenchFn (T : Type) : Type := T → Nat → Nat

/-- The `Benchmark` struct of `src/benchmark.rs`. -/
structure Benchmark (T : Type) where
  name : String
  fns : List (String × BenchFn T)
  range : Nat × Nat × Nat
  generator : Nat → T

/-- `Benchmark::with_name` (src/benchmark.rs): empty function list, default
range `(1, 1 <<< 20, 2)`, identity generator. -/
def Benchmark.with_name (name : String) : Benchmark Nat :=
  { name := name, fns := [], range := (1, 1 <<< 20, 2), generator := range_generator }

/-- `Benchmark::with_range` (src/benchmark.rs). -/
def Benchmark.with_range {T : Type} (b : Benchmark T) (lb ub mul : Nat) : Benchmark T :=
  { b with range := (lb, ub, mul) }

/-- `Benchmark::with_generator` (src/benchmark.rs): fresh empty `fns`, same
name and range, generator composed with the previous chain. -/
def Benchmark.with_generator {T U : Type} (b : Benchmark T) (gen : T → U) : Benchmark U :=
  { name := b.name, fns := [], range := b.range, generator := compose b.generator gen }

/-- `Benchmark::with_bench` (src/benchmark.rs): pushes the named function. -/
def Benchmark.with_bench {T : Type} (b : Benchmark T) (t : String × BenchFn T) : Benchmark T :=
  { b with fns := b.fns ++ [t] }

/-- One printed line: the CSV header `Name,Time (ns)`, or a data row
`bm_name,avg`. -/
inductive OutLine
  | header
  | row (name : String) (avg : Nat)
deriving DecidableEq, Repr

/-- The process-wide printing state: the `HEADER: Once` flag of
`src/benchmark.rs` and the lines printed so far, in order. -/
structure Proc where
  headerPrinted : Bool
  output : List OutLine
deriving DecidableEq, Repr

/-- A fresh process: `Once` not yet fired, nothing printed. -/
def Proc.init : Proc := { headerPrinted := false, output := [] }

/-- `HEADER.call_once(|| println!("Name,Time (ns)"))` (src/benchmark.rs). -/
def print_header_once (p : Proc) : Proc :=
  if p.headerPrinted then p
  else { headerPrinted := true, output := p.output ++ [OutLine.header] }

/-- `println!("{},{}", bm_name, total_duration / runs)` (src/benchmark.rs). -/
def print_row (p : Proc) (name : String) (avg : Nat) : Proc :=
  { p with output := p.output ++ [OutLine.row name avg] }

/-- The inner repetition loop of `Benchmark::run` (src/benchmark.rs):
`while runs < min_runs || total_duration < min_duration` run the function once
more and accumulate `state.finish()`.  `dur k` is the measured duration of
repetition `k`; `fuel` bounds the number of loop iterations (`none` =
non-termination within fuel). -/
def run_reps (cfg : Config) (dur : Nat → Nat) : Nat → Nat → Nat → Option (Nat × Nat)
  | 0, _, _ => none
  | fuel + 1, runs, total =>
    if runs < cfg.min_runs ∨ total < cfg.min_duration then
      run_reps cfg dur fuel (runs + 1) (total + dur runs)
    else
      some (runs, total)

/-- The `for (name, f) in &self.fns` loop of `Benchmark::run`
(src/benchmark.rs) at one range value `i`: compose the benchmark name, apply
the filter, measure, lazily print the header, print the row. -/
def run_fns {T : Type} (cfg : Config) (repFuel : Nat) (bname : String) (i : Nat)
    (input : T) : List (String × BenchFn T) → Proc → Option Proc
  | [], p => some p
  | (fname, f) :: rest, p =>
    let bm_name := bname ++ "/" ++ fname ++ "/" ++ toString i
    if should_run_bm cfg bm_name then
      match run_reps cfg (f input) repFuel 0 0 with
      | none => none
      | some (runs, total) =>
        run_fns cfg repFuel bname i input rest
          (print_row (print_header_once p) bm_name (total / runs))
    else
      run_fns cfg repFuel bname i input rest p

/-- The outer `while i <= ub` loop of `Benchmark::run` (src/benchmark.rs):
compute `input = gen(i)` once per range value, run every registered function
on it, then `i *= mul`.  `fuel` bounds the number of range iterations. -/
def run_range {T : Type} (cfg : Config) (repFuel : Nat) (b : Benchmark T) (ub mul : Nat) :
    Nat → Nat → Proc → Option Proc
  | 0, _, _ => none
  | fuel + 1, i, p =>
    if i ≤ ub then
      match run_fns cfg repFuel b.name i (b.generator i) b.fns p with
      | none => none
      | some p1 => run_range cfg repFuel b ub mul fuel (i * mul) p1
    else
      some p

/-- The outcome of `Benchmark::run`: a panic with the printing state at panic
time, fuel exhaustion of one of the two unbounded loops, or normal completion
with the final printing state. -/
inductive RunResult
  | fatal (msg : String) (p : Proc)
  | fuelOut
  | ok (p : Proc)
deriving DecidableEq, Repr

/-- `Benchmark::run` (src/benchmark.rs): panics if no function is registered,
otherwise iterates the range `(lb, ub, mul)` starting at `i = lb`. -/
def Benchmark.run {T : Type} (b : Benchmark T) (cfg : Config)
    (rangeFuel repFuel : Nat) (p : Proc) : RunResult :=
  if b.fns.length = 0 then
    RunResult.fatal "Cannot call run on an empty benchmark" p
  else
    match run_range cfg repFuel b b.range.2.1 b.range.2.2 rangeFuel b.range.1 p with
    | none => RunResult.fuelOut
    | some p1 => RunResult.ok p1

/-- The range enumeration of `Benchmark::run` in isolation:
`i = lb; while i <= ub { emit i; i *= mul }`, with fuel. -/
def range_values : Nat → Nat → Nat → Nat → Option (List Nat)
  | 0, _, _, _ => none
  | fuel + 1, i, ub, mul =>
    if i ≤ ub then (range_values fuel (i * mul) ub mul).map (fun rest => i :: rest)
    else some []

/-- C4: Registering `g1` and then `g2` composes left-to-right in registration
order: the chain applied to `i` is `g2 (g1 i)` when starting from the default
identity chain, and in general `g2 (g1 (previous chain i))`; a chain with no
registered generators is the identity on the range value. -/
theorem generator_chain_left_to_right (T U : Type) (n : String)
    (b : Benchmark Nat) (g1 : Nat → T) (g2 : T → U) (i : Nat) :
    (((Benchmark.with_name n).with_generator g1).with_generator g2).generator i = g2 (g1 i) ∧
    (Benchmark.with_name n).generator i = i ∧
    ((b.with_generator g1).with_generator g2).generator i = g2 (g1 (b.generator i)) :=
  ⟨rfl, rfl, rfl⟩

/-- C8: `with_generator` returns a configuration whose function list is empty
(previously registered functions are discarded) while the name and the range
`(lb, ub, mul)` are unchanged. -/
theorem with_generator_discards_fns_keeps_name_range (T U : Type)
    (b : Benchmark T) (g : T → U) :
    (b.with_generator g).fns = [] ∧
    (b.with_generator g).name = b.name ∧
    (b.with_generator g).range = b.range :=
  ⟨rfl, rfl, rfl⟩

/-- C7: `run` on a configuration with zero registered functions panics with
the empty-benchmark message before the range loop starts: the printing state
at panic time is exactly the incoming one, so no range value is enumerated, no
generator is invoked, and no header and no row is printed. -/
theorem run_empty_benchmark_fatal (T : Type) (b : Benchmark T) (cfg : Config)
    (rangeFuel repFuel : Nat) (p : Proc) (h : b.fns = []) :
    b.run cfg rangeFuel repFuel p = RunResult.fatal "Cannot call run on an empty benchmark" p := by
  simp [Benchmark.run, h]

theorem run_empty_benchmark_fatal_witness :
    (Benchmark.with_name "bm").run ⟨fun _ => true, 1000000000, 8⟩ 2 2 Proc.init
      = RunResult.fatal "Cannot call run on an empty benchmark" Proc.init :=
  run_empty_benchmark_fatal Nat (Benchmark.with_name "bm")
    ⟨fun _ => true, 1000000000, 8⟩ 2 2 Proc.init rfl

lemma run_reps_exit (cfg : Config) (dur : Nat → Nat) :
    ∀ (fuel r0 t0 runs total : Nat),
      run_reps cfg dur fuel r0 t0 = some (runs, total) →
      cfg.min_runs ≤ runs ∧ cfg.min_duration ≤ total := by
  intro fuel
  induction fuel with
  | zero => intro r0 t0 runs total h; simp [run_reps] at h
  | succ n ih =>
    intro r0 t0 runs total h
    rw [run_reps] at h
    split at h
    · exact ih _ _ _ _ h
    · rename_i hc
      push_neg at hc
      simp only [Option.some.injEq, Prod.mk.injEq] at h
      obtain ⟨h1, h2⟩ := h
      subst h1; subst h2
      exact hc

/-- C2: Whenever the repetition loop of `Benchmark::run` exits normally (the
loop `while runs < min_runs || total_duration < min_duration` returns), both
`min_runs ≤ runs` and `min_duration ≤ total` hold; in particular with
`min_runs = 8` and `min_duration = 1_000_000_000`, at least 8 repetitions ran
and at least one second of measured time accumulated, however fast the
benchmarked function. -/
theorem run_reps_exit_bounds :
    (∀ (cfg : Config) (dur : Nat → Nat) (fuel r0 t0 runs total : Nat),
      run_reps cfg dur fuel r0 t0 = some (runs, total) →
      cfg.min_runs ≤ runs ∧ cfg.min_duration ≤ total) ∧
    (∀ (f : String → Bool) (dur : Nat → Nat) (fuel runs total : Nat),
      run_reps ⟨f, 1000000000, 8⟩ dur fuel 0 0 = some (runs, total) →
      8 ≤ runs ∧ 1000000000 ≤ total) :=
  ⟨fun cfg dur fuel r0 t0 runs total h => run_reps_exit cfg dur fuel r0 t0 runs total h,
   fun f dur fuel runs total h => run_reps_exit ⟨f, 1000000000, 8⟩ dur fuel 0 0 runs total h⟩

theorem run_reps_exit_bounds_witness :
    8 ≤ 8 ∧ 1000000000 ≤ 2000000000 :=
  run_reps_exit_bounds.2 (fun _ => true) (fun _ => 250000000) 9 8 2000000000 (by decide)

/-- C10: `create_config` clamps `min_runs` to at least 2 (`cmp::max(_, 2)`),
and the repetition loop, started at `runs = 0` as `Benchmark::run` starts it,
can only exit with `runs ≥ min_runs ≥ 2 > 0`; the integer division
`total_duration / runs` in the emitted row therefore never divides by zero. -/
theorem emitted_average_divisor_positive :
    (∀ (f : String → Bool) (d r : Nat), 2 ≤ (create_config f d r).min_runs) ∧
    (∀ (f : String → Bool) (d r : Nat) (dur : Nat → Nat) (fuel runs total : Nat),
      run_reps (create_config f d r) dur fuel 0 0 = some (runs, total) →
      2 ≤ runs ∧ 0 < runs) := by
  constructor
  · intro f d r
    exact le_max_right _ _
  · intro f d r dur fuel runs total h
    have hm := (run_reps_exit (create_config f d r) dur fuel 0 0 runs total h).1
    have h2 : 2 ≤ runs := le_trans (le_max_right _ _) hm
    exact ⟨h2, lt_of_lt_of_le (by norm_num) h2⟩

theorem emitted_average_divisor_positive_witness :
    2 ≤ 2 ∧ 0 < 2 :=
  (emitted_average_divisor_positive.2 (fun _ => true) 0 0 (fun _ => 0) 3 2 0 (by decide))

lemma range_values_mul_one (lb ub : Nat) (h : lb ≤ ub) :
    ∀ fuel, range_values fuel lb ub 1 = none := by
  intro fuel
  induction fuel with
  | zero => rfl
  | succ n ih =>
    rw [range_values]
    simp [h, Nat.mul_one, ih]

lemma run_fns_filter_none {T : Type} (cfg : Config) (hf : ∀ s, cfg.filter s = false)
    (repFuel : Nat) (bname : String) (i : Nat) (input : T) :
    ∀ (fns : List (String × BenchFn T)) (p : Proc),
      run_fns cfg repFuel bname i input fns p = some p := by
  intro fns
  induction fns with
  | nil => intro p; rfl
  | cons hd tl ih =>
    intro p
    obtain ⟨fname, f⟩ := hd
    simp [run_fns, should_run_bm, hf, ih]

lemma run_range_filter_none {T : Type} (cfg : Config) (hf : ∀ s, cfg.filter s = false)
    (repFuel : Nat) (b : Benchmark T) (ub mul : Nat) :
    ∀ (fuel i : Nat) (p : Proc),
      run_range cfg repFuel b ub mul fuel i p
        = (range_values fuel i ub mul).map (fun _ => p) := by
  intro fuel
  induction fuel with
  | zero => intro i p; rfl
  | succ n ih =>
    intro i p
    rw [run_range, range_values]
    by_cases h : i ≤ ub
    · simp only [h, if_pos, run_fns_filter_none cfg hf, ih]
      cases range_values n (i * mul) ub mul <;> simp
    · simp [h]

/-- C5: The range loop of `Benchmark::run` enumerates
`i = lb; while i <= ub { use i; i *= mul }`: for `(16, 1024, 2)` the values
are exactly `[16, 32, 64, 128, 256, 512, 1024]`; with `mul = 1` the loop
never terminates for any fuel (multiplier > 1 is a non-auto-corrected
termination precondition); and `run_range` traverses exactly the values of
`range_values` (here observed with an all-rejecting filter, which leaves the
printing state untouched at every enumerated value). -/
theorem run_range_enumeration :
    range_values 8 16 1024 2 = some [16, 32, 64, 128, 256, 512, 1024] ∧
    (∀ lb ub : Nat, lb ≤ ub → ∀ fuel, range_values fuel lb ub 1 = none) ∧
    (∀ (T : Type) (cfg : Config) (repFuel : Nat) (b : Benchmark T) (fuel i : Nat) (p : Proc),
      (∀ s, cfg.filter s = false) →
      run_range cfg repFuel b b.range.2.1 b.range.2.2 fuel i p
        = (range_values fuel i b.range.2.1 b.range.2.2).map (fun _ => p)) :=
  ⟨by decide,
   fun lb ub h fuel => range_values_mul_one lb ub h fuel,
   fun T cfg repFuel b fuel i p hf =>
     run_range_filter_none cfg hf repFuel b b.range.2.1 b.range.2.2 fuel i p⟩

theorem run_range_enumeration_witness :
    range_values 5 7 7 1 = none :=
  run_range_enumeration.2.1 7 7 (by decide) 5

/-- Recognises data-row lines. -/
def is_row : OutLine → Bool
  | OutLine.header => false
  | OutLine.row _ _ => true

/-- The printing invariant maintained across every `Benchmark::run` call in
one process: either the `Once` flag has not fired and nothing was printed, or
it has fired and the output is the header followed by a nonempty header-free
tail. -/
def proc_inv (p : Proc) : Prop :=
  (p.headerPrinted = false ∧ p.output = []) ∨
  (p.headerPrinted = true ∧
    ∃ rest, p.output = OutLine.header :: rest ∧ rest ≠ [] ∧ OutLine.header ∉ rest)

lemma proc_inv_emit (p : Proc) (n : String) (a : Nat) (h : proc_inv p) :
    proc_inv (print_row (print_header_once p) n a) := by
  rcases h with ⟨h1, h2⟩ | ⟨h1, rest, h2, h3, h4⟩
  · right
    refine ⟨?_, [OutLine.row n a], ?_, ?_, ?_⟩ <;>
      simp [print_row, print_header_once, h1, h2]
  · right
    refine ⟨?_, rest ++ [OutLine.row n a], ?_, ?_, ?_⟩ <;>
      simp [print_row, print_header_once, h1, h2, h4]

lemma run_fns_inv {T : Type} (cfg : Config) (repFuel : Nat) (bname : String) (i : Nat)
    (input : T) :
    ∀ (fns : List (String × BenchFn T)) (p p1 : Proc),
      proc_inv p → run_fns cfg repFuel bname i input fns p = some p1 → proc_inv p1 := by
  intro fns
  induction fns with
  | nil =>
    intro p p1 hp h
    obtain rfl : p = p1 := by simpa [run_fns] using h
    exact hp
  | cons hd tl ih =>
    intro p p1 hp h
    obtain ⟨fname, f⟩ := hd
    simp only [run_fns] at h
    split at h
    · split at h
      · exact Option.noConfusion h
      · exact ih _ p1 (proc_inv_emit p _ _ hp) h
    · exact ih p p1 hp h

lemma run_range_inv {T : Type} (cfg : Config) (repFuel : Nat) (b : Benchmark T)
    (ub mul : Nat) :
    ∀ (fuel i : Nat) (p p1 : Proc),
      proc_inv p → run_range cfg repFuel b ub mul fuel i p = some p1 → proc_inv p1 := by
  intro fuel
  induction fuel with
  | zero => intro i p p1 hp h; exact Option.noConfusion h
  | succ n ih =>
    intro i p p1 hp h
    rw [run_range] at h
    split at h
    · split at h
      · exact Option.noConfusion h
      · rename_i p2 heq
        exact ih _ p2 p1 (run_fns_inv cfg repFuel b.name i (b.generator i) b.fns p p2 hp heq) h
    · obtain rfl : p = p1 := by simpa using h
      exact hp

lemma run_ok_inv {T : Type} (b : Benchmark T) (cfg : Config) (rangeFuel repFuel : Nat)
    (p p1 : Proc) (hp : proc_inv p) (h : b.run cfg rangeFuel repFuel p = RunResult.ok p1) :
    proc_inv p1 := by
  rw [Benchmark.run] at h
  split at h
  · exact RunResult.noConfusion h
  · split at h
    · exact RunResult.noConfusion h
    · rename_i p2 heq
      obtain rfl : p2 = p1 := by simpa using h
      exact run_range_inv cfg repFuel b b.range.2.1 b.range.2.2 rangeFuel b.range.1 p p2 hp heq

lemma proc_inv_consequences (p : Proc) (hp : proc_inv p) :
    p.output.count OutLine.header ≤ 1 ∧
    (p.output.count OutLine.header ≠ 0 →
      ∃ rest, p.output = OutLine.header :: rest ∧ OutLine.header ∉ rest) ∧
    (p.output.countP (fun l => is_row l) = 0 → p.output.count OutLine.header = 0) := by
  rcases hp with ⟨h1, h2⟩ | ⟨h1, rest, h2, h3, h4⟩
  · simp [h2]
  · rw [h2]
    refine ⟨?_, fun _ => ⟨rest, rfl, h4⟩, ?_⟩
    · rw [List.count_cons_self, List.count_eq_zero_of_not_mem h4]
    · intro hz
      exfalso
      rw [List.countP_eq_zero] at hz
      obtain ⟨x, hx⟩ := List.exists_mem_of_ne_nil rest h3
      have hxf := hz x (List.mem_cons_of_mem _ hx)
      cases x with
      | header => exact absurd hx h4
      | row n a => simp [is_row] at hxf

/-- C9: Across all calls to `Benchmark::run` within one process — starting
from the fresh process state and threading the printing state through any
sequence of successful runs over arbitrary element types — the CSV header is
printed at most once, the header (when printed at all) is the very first
printed line, hence precedes the first data row, and zero data rows implies
zero header lines. -/
theorem header_printed_once_before_rows :
    proc_inv Proc.init ∧
    (∀ (T : Type) (b : Benchmark T) (cfg : Config) (rangeFuel repFuel : Nat) (p p1 : Proc),
      proc_inv p → b.run cfg rangeFuel repFuel p = RunResult.ok p1 → proc_inv p1) ∧
    (∀ p : Proc, proc_inv p →
      p.output.count OutLine.header ≤ 1 ∧
      (p.output.count OutLine.header ≠ 0 →
        ∃ rest, p.output = OutLine.header :: rest ∧ OutLine.header ∉ rest) ∧
      (p.output.countP (fun l => is_row l) = 0 → p.output.count OutLine.header = 0)) :=
  ⟨Or.inl ⟨rfl, rfl⟩,
   fun _ b cfg rangeFuel repFuel p p1 hp h => run_ok_inv b cfg rangeFuel repFuel p p1 hp h,
   fun p hp => proc_inv_consequences p hp⟩

theorem header_printed_once_before_rows_witness :
    proc_inv (Proc.mk true [OutLine.header, OutLine.row "bm/f/1" 1000000000]) :=
  header_printed_once_before_rows.2.1 Nat
    (((Benchmark.with_name "bm").with_range 1 1 2).with_bench ("f", fun _ _ => 1000000000))
    ⟨fun _ => true, 1000000000, 2⟩ 2 3 Proc.init
    (Proc.mk true [OutLine.header, OutLine.row "bm/f/1" 1000000000])
    (Or.inl ⟨rfl, rfl⟩) (by decide)

end Pew
